import Mathlib

/-
Verification of the distributed LinearOperator composition algebra
(pylops_distributed/LinearOperator.py).

The embedding models arrays of the dask backend as `DVal`: a payload
together with a flag saying whether the value is a lazy dask array and a
counter of how many times `compute` has been triggered while producing it.
`da.from_array` marks a value as dask; `.compute()` materializes a dask
value (and is an error on an already concrete value, as in Python, where
numpy arrays have no `compute` attribute).

Operators are the inductive `Op`, one constructor per class of the source
file (`_CustomLinearOperator`, `_SumLinearOperator`, `_ProductLinearOperator`,
`_ScaledLinearOperator`, `_PowerLinearOperator`, `_ConjLinearOperator`).
Every node stores its own `Fields` record (shape, dtype, explicit, compute,
todask), exactly the attributes set by `LinearOperator.__init__`.
`acts` produces the private implementations `_matvec` / `_rmatvec` /
`_matmat` of a node; the public `matvec` / `rmatvec` add the inherited
envelope of `LinearOperator.matvec` / `rmatvec` (lines 56-78 of the source):
optional `da.from_array` conversion per `todask`, the private call, a
reshape to the declared dimension, and an optional `compute` per the
operator's `compute` flag.
-/

set_option linter.unusedVariables false
set_option linter.unusedSectionVars false

namespace PLD

/-- Model of a backend array value: payload plus laziness state.
`dask` is true when the value is a lazy dask array, false when it is a
concrete (numpy) array; `computes` counts how many computation triggers
(`.compute()` calls) happened while producing the value. -/
structure DVal (β : Type) where
  data : β
  dask : Bool
  computes : Nat
  deriving DecidableEq

/-- One dimensional array value (payload is the list of entries). -/
abbrev Arr (α : Type) := DVal (List α)

/-- Two dimensional array value (payload is the list of columns). -/
abbrev Mat (α : Type) := DVal (List (List α))

/-- Model of `dask.array.from_array`: the value becomes a dask array. -/
def fromA (a : DVal β) : DVal β := { a with dask := true }

/-- Model of `.compute()`: materializes a dask value (incrementing the
trigger counter); on an already concrete value it fails, as numpy arrays
have no `compute` attribute. -/
def computeD (a : DVal β) : Option (DVal β) :=
  if a.dask then some { a with dask := false, computes := a.computes + 1 } else none

/-- Conditional computation trigger, as in `if compute: res = res.compute()`. -/
def cmpIf (c : Bool) (a : DVal β) : Option (DVal β) :=
  if c then computeD a else some a

/-- Model of `y.reshape(n)` for a 1-d target: succeeds exactly when the
element count matches the declared dimension. -/
def reshapeTo (n : Nat) (a : Arr α) : Option (Arr α) :=
  if a.data.length = n then some a else none

/-- Model of `da.conj` on a vector: elementwise conjugation. -/
def conjA [Star α] (a : Arr α) : Arr α := { a with data := a.data.map star }

/-- Scalar times vector, as in `alpha * y`. -/
def smulA [Mul α] (c : α) (a : Arr α) : Arr α := { a with data := a.data.map (c * ·) }

/-- Elementwise vector sum, as in `y1 + y2`; fails on a length mismatch
(numpy broadcasting error). Mixing a dask operand yields a dask result. -/
def addArr [Add α] (a b : Arr α) : Option (Arr α) :=
  if a.data.length = b.data.length then
    some ⟨List.zipWith (· + ·) a.data b.data, a.dask || b.dask, a.computes + b.computes⟩
  else none

/-- Scalar times matrix. -/
def smulM [Mul α] (c : α) (m : Mat α) : Mat α :=
  { m with data := m.data.map (List.map (c * ·)) }

/-- Elementwise matrix sum; fails when the column layout differs. -/
def addMat [Add α] (a b : Mat α) : Option (Mat α) :=
  if a.data.map List.length = b.data.map List.length then
    some ⟨List.zipWith (List.zipWith (· + ·)) a.data b.data, a.dask || b.dask,
          a.computes + b.computes⟩
  else none

/-- Iterated application of a fallible map, as the loop of
`_PowerLinearOperator._power`: `for i in range(p): res = fun(res)`. -/
def iterOpt (f : γ → Option γ) : Nat → γ → Option γ
  | 0, x => some x
  | p + 1, x => (f x).bind (iterOpt f p)

/-- The shared power iteration routine `_PowerLinearOperator._power`:
copy the input, apply `f` `p` times, then trigger computation when `cmp`
is set. -/
def powerRun (f : DVal β → Option (DVal β)) (p : Nat) (cmp : Bool) (x : DVal β) :
    Option (DVal β) :=
  (iterOpt f p x).bind (cmpIf cmp)

/-- The attributes set by `LinearOperator.__init__`: operator shape,
dtype tag, `explicit` flag (None modelled as `none`), the pair of
eval (`compute`) flags and the pair of convert (`todask`) flags. -/
structure Fields where
  shape : Nat × Nat
  dtype : Nat
  explicit : Option Bool
  compute : Bool × Bool
  todask : Bool × Bool
  deriving DecidableEq

/-- A Python value passed as the exponent of `_PowerLinearOperator`:
either an integer or some non-integer scalar (`np.issubdtype(type(p), int)`
fails on the latter). -/
inductive PyExp where
  | ofInt (n : Int)
  | nonInt
  deriving DecidableEq

/-- Operator expressions: one constructor per class of the source file.
`custom` stores the user supplied `_matvec` / `_rmatvec` / `_matmat`
handles (absent handles are `none`); the composites store their child
operator(s) and, for `scaled` / `power`, the scalar datum. Every node
carries the `Fields` its `__init__` computed. -/
inductive Op (α : Type) where
  | custom (f : Fields) (mv rmv : Option (Arr α → Option (Arr α)))
      (mm : Option (Mat α → Option (Mat α)))
  | sum (f : Fields) (A B : Op α)
  | prod (f : Fields) (A B : Op α)
  | scaled (f : Fields) (A : Op α) (c : α)
  | power (f : Fields) (A : Op α) (p : Nat)
  | conj (f : Fields) (A : Op α)

/-- The `Fields` record of a node. -/
def fields : Op α → Fields
  | .custom f _ _ _ => f
  | .sum f _ _ => f
  | .prod f _ _ => f
  | .scaled f _ _ => f
  | .power f _ _ => f
  | .conj f _ => f

/-- Replacement of the `compute` attribute of an operator, as in the
assignment `A.compute = (False, False)` of `_PowerLinearOperator.__init__`. -/
def setCompute : Op α → Bool × Bool → Op α
  | .custom f mv rmv mm, c => .custom { f with compute := c } mv rmv mm
  | .sum f A B, c => .sum { f with compute := c } A B
  | .prod f A B, c => .prod { f with compute := c } A B
  | .scaled f A s, c => .scaled { f with compute := c } A s
  | .power f A p, c => .power { f with compute := c } A p
  | .conj f A, c => .conj { f with compute := c } A

/-- Replacement of the whole attribute record of an operator (used to state
that a child's own attributes play no role in an action). -/
def withFields : Op α → Fields → Op α
  | .custom _ mv rmv mm, g => .custom g mv rmv mm
  | .sum _ A B, g => .sum g A B
  | .prod _ A B, g => .prod g A B
  | .scaled _ A s, g => .scaled g A s
  | .power _ A p, g => .power g A p
  | .conj _ A, g => .conj g A

/-- Whether the node is a `_PowerLinearOperator`. -/
def isPower : Op α → Bool
  | .power _ _ _ => true
  | _ => false

/-- The private implementations of a node. -/
structure Acts (α : Type) where
  mvI : Arr α → Option (Arr α)
  rmvI : Arr α → Option (Arr α)
  mmI : Mat α → Option (Mat α)

/-- Invocation of an optional handle: calling an absent handle fails
(`None` is not callable / `NotImplementedError`). -/
def optA {γ γ' : Type} (g : Option (γ → Option γ')) : γ → Option γ' :=
  fun x => match g with
  | some h => h x
  | none => none

/-- The shared public application envelope of `LinearOperator.matvec` and
`rmatvec` (source lines 56-78): convert the input per the convert flag,
run the private implementation, reshape to the declared dimension, then
trigger computation per the eval flag. -/
def appEnv (conv : Bool) (impl : Arr α → Option (Arr α)) (n : Nat) (cmp : Bool)
    (x : Arr α) : Option (Arr α) :=
  ((impl (if conv then fromA x else x)).bind (reshapeTo n)).bind (cmpIf cmp)

/-- Forward envelope of a child operator `c` whose private forward map is `i`. -/
def pubF (c : Op α) (i : Arr α → Option (Arr α)) : Arr α → Option (Arr α) :=
  appEnv (fields c).todask.1 i (fields c).shape.1 (fields c).compute.1

/-- Adjoint envelope of a child operator `c` whose private adjoint map is `i`. -/
def pubR (c : Op α) (i : Arr α → Option (Arr α)) : Arr α → Option (Arr α) :=
  appEnv (fields c).todask.2 i (fields c).shape.2 (fields c).compute.2

/-- Modelled from the spec: the generic batched default of the base
operator library (the parent class `_matmat`, not part of this repository)
applies the forward map independently to each column and stacks the
results. -/
def colsVia (f : Arr α → Option (Arr α)) (X : Mat α) : Option (Mat α) :=
  match X.data.mapM (fun col => f ⟨col, X.dask, 0⟩) with
  | none => none
  | some rs =>
    some ⟨rs.map (·.data), rs.any (·.dask),
          X.computes + (rs.map (·.computes)).foldr (· + ·) 0⟩

/-- The private implementations `_matvec` / `_rmatvec` / `_matmat` of each
operator class, exactly as defined in the source:
`custom` invokes the stored handles (its `_matmat` falls back to the
per-column default when no handle was given);
`sum` adds the children's public results; `prod` composes them
(forward `A.matvec(B.matvec(x))`, adjoint `B.rmatvec(A.rmatvec(x))`);
`scaled` multiplies by the scalar (conjugated on the adjoint side);
`power` runs `_power` over the child's public map with its own eval flag;
`conj` conjugates around the child's private implementation
(`da.conj(self.oOp._matvec(da.conj(x)))`), and, having no `_matmat`
override, inherits the per-column default built on its own public forward. -/
def acts [Add α] [Mul α] [InvolutiveStar α] : Op α → Acts α
  | .custom f mv rmv mm =>
    { mvI := optA mv
      rmvI := optA rmv
      mmI :=
        match mm with
        | some g => g
        | none => colsVia (appEnv f.todask.1 (optA mv) f.shape.1 f.compute.1) }
  | .sum _ A B =>
    let aA := acts A
    let aB := acts B
    { mvI := fun x => (pubF A aA.mvI x).bind fun a =>
        (pubF B aB.mvI x).bind fun b => addArr a b
      rmvI := fun x => (pubR A aA.rmvI x).bind fun a =>
        (pubR B aB.rmvI x).bind fun b => addArr a b
      mmI := fun X => (aA.mmI X).bind fun a =>
        (aB.mmI X).bind fun b => addMat a b }
  | .prod _ A B =>
    let aA := acts A
    let aB := acts B
    { mvI := fun x => (pubF B aB.mvI x).bind (pubF A aA.mvI)
      rmvI := fun x => (pubR A aA.rmvI x).bind (pubR B aB.rmvI)
      mmI := fun X => (aB.mmI X).bind aA.mmI }
  | .scaled _ A c =>
    let aA := acts A
    { mvI := fun x => (pubF A aA.mvI x).map (smulA c)
      rmvI := fun x => (pubR A aA.rmvI x).map (smulA (star c))
      mmI := fun X => (aA.mmI X).map (smulM c) }
  | .power f A p =>
    let aA := acts A
    { mvI := powerRun (pubF A aA.mvI) p f.compute.1
      rmvI := powerRun (pubR A aA.rmvI) p f.compute.2
      mmI := powerRun aA.mmI p f.compute.1 }
  | .conj f A =>
    let aA := acts A
    { mvI := fun x => (aA.mvI (conjA x)).map conjA
      rmvI := fun x => (aA.rmvI (conjA x)).map conjA
      mmI := colsVia (appEnv f.todask.1
        (fun x => (aA.mvI (conjA x)).map conjA) f.shape.1 f.compute.1) }

/-- Public forward application `LinearOperator.matvec`. -/
def matvec [Add α] [Mul α] [InvolutiveStar α] (A : Op α) : Arr α → Option (Arr α) :=
  pubF A (acts A).mvI

/-- Public adjoint application `LinearOperator.rmatvec`. -/
def rmatvec [Add α] [Mul α] [InvolutiveStar α] (A : Op α) : Arr α → Option (Arr α) :=
  pubR A (acts A).rmvI

/-- Modelled from the spec: the public batched-forward entry point
(`matmat` of the parent operator library, not part of this repository)
delegates to the variant's batched implementation. -/
def matmat [Add α] [Mul α] [InvolutiveStar α] (A : Op α) : Mat α → Option (Mat α) :=
  (acts A).mmI

/-- Constructor of `_CustomLinearOperator`. -/
def mkCustom (shape : Nat × Nat) (mv rmv : Option (Arr α → Option (Arr α)))
    (mm : Option (Mat α → Option (Mat α))) (dtype : Nat) (explicit : Option Bool)
    (compute todask : Bool × Bool) : Op α :=
  .custom ⟨shape, dtype, explicit, compute, todask⟩ mv rmv mm

/-- Constructor of `_SumLinearOperator`: requires equal shapes and equal
eval-flag pairs, then copies dtype, explicit, eval and convert flags from
the left operand. -/
def mkSum (A B : Op α) : Except String (Op α) :=
  if (fields A).shape ≠ (fields B).shape then
    .error "cannot add: shape mismatch"
  else if (fields A).compute ≠ (fields B).compute then
    .error "compute must be the same for A and B"
  else
    .ok (.sum ⟨(fields A).shape, (fields A).dtype, (fields A).explicit,
               (fields A).compute, (fields A).todask⟩ A B)

/-- Constructor of `_ProductLinearOperator`: requires conformable inner
dimensions; shape is `(A.shape[0], B.shape[1])`, dtype and explicit come
from `A`, and the flag pairs mix `B`'s forward side with `A`'s adjoint
side: `compute=(B.compute[0], A.compute[1])`, `todask=(B.todask[0], A.todask[1])`. -/
def mkProduct (A B : Op α) : Except String (Op α) :=
  if (fields A).shape.2 ≠ (fields B).shape.1 then
    .error "cannot multiply: shape mismatch"
  else
    .ok (.prod ⟨((fields A).shape.1, (fields B).shape.2), (fields A).dtype,
                (fields A).explicit,
                ((fields B).compute.1, (fields A).compute.2),
                ((fields B).todask.1, (fields A).todask.2)⟩ A B)

/-- Constructor of `_ScaledLinearOperator`: copies all attributes from `A`
(the scalar check of the source is discharged by typing). -/
def mkScaled (A : Op α) (c : α) : Op α :=
  .scaled ⟨(fields A).shape, (fields A).dtype, (fields A).explicit,
           (fields A).compute, (fields A).todask⟩ A c

/-- Constructor of `_PowerLinearOperator`: requires a square operand and a
non-negative integer exponent; copies all attributes from `A` (its eval
flags as they were at that moment), then zeroes the stored child's eval
flags (`A.compute = (False, False)`). -/
def mkPower (A : Op α) (e : PyExp) : Except String (Op α) :=
  if (fields A).shape.1 ≠ (fields A).shape.2 then
    .error "square LinearOperator expected"
  else
    match e with
    | .nonInt => .error "non-negative integer expected as p"
    | .ofInt n =>
      if n < 0 then .error "non-negative integer expected as p"
      else
        .ok (.power ⟨(fields A).shape, (fields A).dtype, (fields A).explicit,
                     (fields A).compute, (fields A).todask⟩
              (setCompute A (false, false)) n.toNat)

/-- Constructor of `_ConjLinearOperator`: copies all attributes from the
wrapped operator. -/
def mkConj (A : Op α) : Op α :=
  .conj ⟨(fields A).shape, (fields A).dtype, (fields A).explicit,
         (fields A).compute, (fields A).todask⟩ A

/-- An operand of `LinearOperator.dot`: another operator, a scalar, or an
array (`dims` is its numpy shape; the payload keeps the columns, the
dask flag and the trigger counter). -/
structure PyArr (α : Type) where
  dims : List Nat
  cols : List (List α)
  dask : Bool
  computes : Nat

/-- Flattening of an array operand passed to the forward path. -/
def pyToVec (a : PyArr α) : Arr α := ⟨a.cols.flatten, a.dask, a.computes⟩

/-- View of a 2-d array operand as a matrix of columns. -/
def pyToMat (a : PyArr α) : Mat α := ⟨a.cols, a.dask, a.computes⟩

/-- The runtime kind of the operand `x` of `dot`. -/
inductive Operand (α : Type) where
  | opnd (B : Op α)
  | scalar (c : α)
  | array (a : PyArr α)

/-- Possible outcomes of `dot`. -/
inductive DotOut (α : Type) where
  | opOut (P : Op α)
  | vecOut (r : Option (Arr α))
  | matOut (r : Option (Mat α))

/-- `LinearOperator.dot` (source lines 86-112): an operator operand builds
a product; a scalar builds a scaled operator; a 1-d array, or a 2-d array
with one column, goes through `matvec`; any other 2-d array goes through
`matmat`; anything else raises. -/
def dot [Add α] [Mul α] [InvolutiveStar α] (self : Op α) :
    Operand α → Except String (DotOut α)
  | .opnd B => (mkProduct self B).map .opOut
  | .scalar c => .ok (.opOut (mkScaled self c))
  | .array a =>
    if a.dims.length = 1 ∨ (a.dims.length = 2 ∧ a.dims.getD 1 0 = 1) then
      .ok (.vecOut (matvec self (pyToVec a)))
    else if a.dims.length = 2 then
      .ok (.matOut (matmat self (pyToMat a)))
    else
      .error "expected 1-d or 2-d array or matrix"

/-- `LinearOperator.__matmul__` (source lines 114-118): scalar operands are
rejected with a redirection to scalar multiplication; otherwise it behaves
as `dot`. -/
def matmulOp [Add α] [Mul α] [InvolutiveStar α] (self : Op α) (x : Operand α) :
    Except String (DotOut α) :=
  match x with
  | .scalar _ => .error "Scalar operands are not allowed, use asterisk instead"
  | _ => dot self x

/-- The `_adjoint` of each class.
`custom` swaps its handles, transposes the shape, keeps dtype and eval
flags, swaps the convert flags and drops the batched handle and the
explicit flag (source lines 194-200).
`sum` returns `A.H + B.H` and `power` returns `A.H ** p`; the `+` and `**`
there resolve to the parent library (not part of this repository) and are
modelled from the spec as this algebra's sum and power constructions.
`prod` returns `B.H * A.H` and `scaled` returns `A.H * conj(alpha)`, both
through `__mul__` = `dot` of the source, which reduce to `mkProduct` and
`mkScaled`; `conj` wraps the child's adjoint in a new conjugation. -/
def adjointOp [Add α] [Mul α] [InvolutiveStar α] : Op α → Except String (Op α)
  | .custom f mv rmv _ =>
    .ok (.custom ⟨(f.shape.2, f.shape.1), f.dtype, none, f.compute,
                  (f.todask.2, f.todask.1)⟩ rmv mv none)
  | .sum _ A B => do
    let aH ← adjointOp A
    let bH ← adjointOp B
    mkSum aH bH
  | .prod _ A B => do
    let bH ← adjointOp B
    let aH ← adjointOp A
    mkProduct bH aH
  | .scaled _ A c => do
    let aH ← adjointOp A
    .ok (mkScaled aH (star c))
  | .power _ A p => do
    let aH ← adjointOp A
    mkPower aH (.ofInt p)
  | .conj _ A => do
    let aH ← adjointOp A
    .ok (mkConj aH)

/-- Well-formedness of an operator all of whose eval flags are false:
every node was built by the smart constructors (so its attribute record is
the one its `__init__` computes and the construction checks hold) and
every node's eval-flag pair is `(false, false)`. -/
def cleanWF : Op α → Bool
  | .custom f _ _ _ => f.compute == (false, false)
  | .sum f A B =>
    cleanWF A && cleanWF B && ((fields A).shape == (fields B).shape) &&
      ((fields A).compute == (fields B).compute) && (f == fields A)
  | .prod f A B =>
    cleanWF A && cleanWF B && ((fields A).shape.2 == (fields B).shape.1) &&
      (f == ⟨((fields A).shape.1, (fields B).shape.2), (fields A).dtype,
             (fields A).explicit,
             ((fields B).compute.1, (fields A).compute.2),
             ((fields B).todask.1, (fields A).todask.2)⟩)
  | .scaled f A _ => cleanWF A && (f == fields A)
  | .power f A _ =>
    cleanWF A && ((fields A).shape.1 == (fields A).shape.2) && (f == fields A)
  | .conj f A => cleanWF A && (f == fields A)

section Lemmas

variable {α : Type} [Add α] [Mul α] [InvolutiveStar α]

@[simp] theorem fields_custom (f : Fields) (mv rmv : Option (Arr α → Option (Arr α)))
    (mm : Option (Mat α → Option (Mat α))) : fields (.custom f mv rmv mm) = f := rfl

@[simp] theorem fields_sum (f : Fields) (A B : Op α) : fields (.sum f A B) = f := rfl

@[simp] theorem fields_prod (f : Fields) (A B : Op α) : fields (.prod f A B) = f := rfl

@[simp] theorem fields_scaled (f : Fields) (A : Op α) (c : α) :
    fields (.scaled f A c) = f := rfl

@[simp] theorem fields_power (f : Fields) (A : Op α) (p : Nat) :
    fields (.power f A p) = f := rfl

@[simp] theorem fields_conj (f : Fields) (A : Op α) : fields (.conj f A) = f := rfl

theorem mkScaled_eq (A : Op α) (c : α) : mkScaled A c = .scaled (fields A) A c := rfl

theorem mkConj_eq (A : Op α) : mkConj A = .conj (fields A) A := rfl

theorem acts_sum (f : Fields) (A B : Op α) :
    acts (.sum f A B) =
      { mvI := fun x => (matvec A x).bind fun a => (matvec B x).bind fun b => addArr a b
        rmvI := fun y => (rmatvec A y).bind fun a => (rmatvec B y).bind fun b => addArr a b
        mmI := fun X => (matmat A X).bind fun a => (matmat B X).bind fun b => addMat a b } :=
  rfl

theorem acts_prod (f : Fields) (A B : Op α) :
    acts (.prod f A B) =
      { mvI := fun x => (matvec B x).bind (matvec A)
        rmvI := fun y => (rmatvec A y).bind (rmatvec B)
        mmI := fun X => (matmat B X).bind (matmat A) } := rfl

theorem acts_scaled (f : Fields) (A : Op α) (c : α) :
    acts (.scaled f A c) =
      { mvI := fun x => (matvec A x).map (smulA c)
        rmvI := fun y => (rmatvec A y).map (smulA (star c))
        mmI := fun X => (matmat A X).map (smulM c) } := rfl

theorem acts_power (f : Fields) (A : Op α) (p : Nat) :
    acts (.power f A p) =
      { mvI := powerRun (matvec A) p f.compute.1
        rmvI := powerRun (rmatvec A) p f.compute.2
        mmI := powerRun (matmat A) p f.compute.1 } := rfl

theorem acts_conj (f : Fields) (A : Op α) :
    acts (.conj f A) =
      { mvI := fun x => ((acts A).mvI (conjA x)).map conjA
        rmvI := fun y => ((acts A).rmvI (conjA y)).map conjA
        mmI := colsVia (appEnv f.todask.1
          (fun x => ((acts A).mvI (conjA x)).map conjA) f.shape.1 f.compute.1) } := rfl

theorem acts_custom (f : Fields) (mv rmv : Option (Arr α → Option (Arr α)))
    (mm : Option (Mat α → Option (Mat α))) :
    acts (.custom f mv rmv mm) =
      { mvI := optA mv
        rmvI := optA rmv
        mmI :=
          match mm with
          | some g => g
          | none => colsVia (appEnv f.todask.1 (optA mv) f.shape.1 f.compute.1) } := rfl

theorem matvec_eq (X : Op α) (x : Arr α) :
    matvec X x =
      (((acts X).mvI (if (fields X).todask.1 then fromA x else x)).bind
        (reshapeTo (fields X).shape.1)).bind (cmpIf (fields X).compute.1) := rfl

theorem rmatvec_eq (X : Op α) (y : Arr α) :
    rmatvec X y =
      (((acts X).rmvI (if (fields X).todask.2 then fromA y else y)).bind
        (reshapeTo (fields X).shape.2)).bind (cmpIf (fields X).compute.2) := rfl

theorem fromA_fromA (x : DVal β) : fromA (fromA x) = fromA x := rfl

/-- Converting an input that was already converted by the same flag changes
nothing: `da.from_array` is modelled as idempotent. -/
theorem matvec_fromA (X : Op α) (x : Arr α) :
    matvec X (if (fields X).todask.1 then fromA x else x) = matvec X x := by
  rw [matvec_eq, matvec_eq]
  cases h : (fields X).todask.1 <;> simp [h, fromA_fromA]

theorem rmatvec_fromA (X : Op α) (y : Arr α) :
    rmatvec X (if (fields X).todask.2 then fromA y else y) = rmatvec X y := by
  rw [rmatvec_eq, rmatvec_eq]
  cases h : (fields X).todask.2 <;> simp [h, fromA_fromA]

/-- A successful forward application has the declared output length. -/
theorem matvec_length (X : Op α) (x r : Arr α) (h : matvec X x = some r) :
    r.data.length = (fields X).shape.1 := by
  rw [matvec_eq] at h
  rcases hy : (acts X).mvI (if (fields X).todask.1 then fromA x else x) with _ | y
  · rw [hy] at h; simp at h
  · rw [hy] at h
    simp only [Option.some_bind, reshapeTo] at h
    split at h
    · rename_i hlen
      simp only [Option.some_bind, cmpIf] at h
      split at h
      · simp only [computeD] at h
        split at h
        · simp only [Option.some.injEq] at h
          subst h; exact hlen
        · simp at h
      · simp only [Option.some.injEq] at h; subst h; exact hlen
    · simp at h

theorem rmatvec_length (X : Op α) (y r : Arr α) (h : rmatvec X y = some r) :
    r.data.length = (fields X).shape.2 := by
  rw [rmatvec_eq] at h
  rcases hy : (acts X).rmvI (if (fields X).todask.2 then fromA y else y) with _ | z
  · rw [hy] at h; simp at h
  · rw [hy] at h
    simp only [Option.some_bind, reshapeTo] at h
    split at h
    · rename_i hlen
      simp only [Option.some_bind, cmpIf] at h
      split at h
      · simp only [computeD] at h
        split at h
        · simp only [Option.some.injEq] at h
          subst h; exact hlen
        · simp at h
      · simp only [Option.some.injEq] at h; subst h; exact hlen
    · simp at h

/-- A successful application whose eval flag is set ends in a computed
(concrete) value. -/
theorem rmatvec_computed (X : Op α) (y r : Arr α) (h : rmatvec X y = some r)
    (hc : (fields X).compute.2 = true) : r.dask = false := by
  rw [rmatvec_eq, hc] at h
  rcases hy : ((acts X).rmvI (if (fields X).todask.2 then fromA y else y)).bind
      (reshapeTo (fields X).shape.2) with _ | z
  · rw [hy] at h; simp at h
  · rw [hy] at h
    simp only [Option.some_bind, cmpIf, if_pos, computeD] at h
    split at h
    · simp only [Option.some.injEq] at h; subst h; rfl
    · simp at h

theorem matvec_computed (X : Op α) (x r : Arr α) (h : matvec X x = some r)
    (hc : (fields X).compute.1 = true) : r.dask = false := by
  rw [matvec_eq, hc] at h
  rcases hy : ((acts X).mvI (if (fields X).todask.1 then fromA x else x)).bind
      (reshapeTo (fields X).shape.1) with _ | z
  · rw [hy] at h; simp at h
  · rw [hy] at h
    simp only [Option.some_bind, cmpIf, if_pos, computeD] at h
    split at h
    · simp only [Option.some.injEq] at h; subst h; rfl
    · simp at h

theorem computeD_data (a r : DVal β) (h : computeD a = some r) : r.data = a.data := by
  simp only [computeD] at h
  split at h
  · simp only [Option.some.injEq] at h; subst h; rfl
  · simp at h

end Lemmas

section ConstructorLemmas

variable {α : Type}

theorem fields_setCompute (X : Op α) (c : Bool × Bool) :
    fields (setCompute X c) = { fields X with compute := c } := by
  cases X <;> rfl

theorem Fields.setComputeSelf (f : Fields) (hc : f.compute = (false, false)) :
    ({ f with compute := (false, false) } : Fields) = f := by
  rcases f with ⟨sh, dt, ex, co, td⟩
  simp only at hc
  rw [hc]

theorem setCompute_id (X : Op α) (h : (fields X).compute = (false, false)) :
    setCompute X (false, false) = X := by
  cases X <;> simp only [setCompute, fields] at h ⊢ <;>
    rw [Fields.setComputeSelf _ h]

theorem mkSum_ok (A B : Op α) (S : Op α) (h : mkSum A B = .ok S) :
    (fields A).shape = (fields B).shape ∧ (fields A).compute = (fields B).compute ∧
      S = .sum (fields A) A B := by
  simp only [mkSum] at h
  split at h
  · simp at h
  · split at h
    · simp at h
    · rename_i h1 h2
      simp only [Except.ok.injEq] at h
      exact ⟨not_not.mp h1, not_not.mp h2, h.symm⟩

theorem mkProduct_ok (A B : Op α) (P : Op α) (h : mkProduct A B = .ok P) :
    (fields A).shape.2 = (fields B).shape.1 ∧
      P = .prod ⟨((fields A).shape.1, (fields B).shape.2), (fields A).dtype,
                 (fields A).explicit,
                 ((fields B).compute.1, (fields A).compute.2),
                 ((fields B).todask.1, (fields A).todask.2)⟩ A B := by
  simp only [mkProduct] at h
  split at h
  · simp at h
  · rename_i h1
    simp only [Except.ok.injEq] at h
    exact ⟨not_not.mp h1, h.symm⟩

theorem mkPower_ok (A : Op α) (e : PyExp) (P : Op α) (h : mkPower A e = .ok P) :
    (fields A).shape.1 = (fields A).shape.2 ∧
      ∃ n : Nat, e = .ofInt n ∧
        P = .power (fields A) (setCompute A (false, false)) n := by
  simp only [mkPower] at h
  split at h
  · simp at h
  · rename_i h1
    cases e with
    | nonInt => simp at h
    | ofInt n =>
      simp only at h
      split at h
      · simp at h
      · rename_i h2
        simp only [Except.ok.injEq] at h
        refine ⟨not_not.mp h1, n.toNat, ?_, h.symm⟩
        congr 1
        omega

end ConstructorLemmas

section ClaimsConstruction

variable {α : Type}

/-- C3: constructing Power(A, p), for any prior eval flags of A, stores the
child with both eval flags false (the `A.compute = (False, False)`
assignment), while the Power node itself keeps A's original attribute
record; and this is the only mutation of an operand any construction
performs: `setCompute` alters nothing but the eval-flag pair, and the Sum,
Product, Scaled and Conjugate constructors store their operands unchanged. -/
theorem C3_power_child_flags (A : Op α) (e : PyExp) (P : Op α)
    (h : mkPower A e = .ok P) :
    (∃ n : Nat, P = .power (fields A) (setCompute A (false, false)) n) ∧
    (fields (setCompute A (false, false))).compute = (false, false) ∧
    (∀ (X : Op α) (c : Bool × Bool),
      (fields (setCompute X c)).shape = (fields X).shape ∧
      (fields (setCompute X c)).dtype = (fields X).dtype ∧
      (fields (setCompute X c)).explicit = (fields X).explicit ∧
      (fields (setCompute X c)).todask = (fields X).todask ∧
      (fields (setCompute X c)).compute = c) ∧
    (∀ (X Y S : Op α), mkSum X Y = .ok S → ∃ g, S = .sum g X Y) ∧
    (∀ (X Y Q : Op α), mkProduct X Y = .ok Q → ∃ g, Q = .prod g X Y) ∧
    (∀ (X : Op α) (c : α), ∃ g, mkScaled X c = .scaled g X c) ∧
    (∀ X : Op α, ∃ g, mkConj X = .conj g X) := by
  obtain ⟨-, n, -, hP⟩ := mkPower_ok A e P h
  refine ⟨⟨n, hP⟩, ?_, ?_, ?_, ?_, ?_, ?_⟩
  · rw [fields_setCompute]
  · intro X c
    rw [fields_setCompute]
    exact ⟨rfl, rfl, rfl, rfl, rfl⟩
  · intro X Y S hS
    exact ⟨fields X, (mkSum_ok X Y S hS).2.2⟩
  · intro X Y Q hQ
    exact ⟨_, (mkProduct_ok X Y Q hQ).2⟩
  · intro X c
    exact ⟨fields X, rfl⟩
  · intro X
    exact ⟨fields X, rfl⟩

/-- C3 witness at a concrete power construction over an operator whose eval
flags start out true: the stored child ends with both eval flags false. -/
theorem C3_witness :
    (fields (setCompute
      (mkCustom (1, 1) (some fun v => some v) none none 0 none
        (true, true) (false, false) : Op Int) (false, false))).compute =
      (false, false) :=
  (C3_power_child_flags
    (mkCustom (1, 1) (some fun v => some v) none none 0 none
      (true, true) (false, false) : Op Int)
    (.ofInt 1) _ rfl).2.1

/-- C5: every invalid composite construction fails immediately with an
error at construction time: a Sum over children of unequal shapes or
unequal eval-flag pairs, a Product with mismatched inner dimensions, a
Power over a non-square operand, and a Power with a negative or
non-integer exponent. -/
theorem C5_construction_errors :
    (∀ A B : Op α, (fields A).shape ≠ (fields B).shape →
      ∃ e, mkSum A B = .error e) ∧
    (∀ A B : Op α, (fields A).compute ≠ (fields B).compute →
      ∃ e, mkSum A B = .error e) ∧
    (∀ A B : Op α, (fields A).shape.2 ≠ (fields B).shape.1 →
      ∃ e, mkProduct A B = .error e) ∧
    (∀ (A : Op α) (p : PyExp), (fields A).shape.1 ≠ (fields A).shape.2 →
      ∃ e, mkPower A p = .error e) ∧
    (∀ (A : Op α) (n : Int), n < 0 → ∃ e, mkPower A (.ofInt n) = .error e) ∧
    (∀ A : Op α, ∃ e, mkPower A .nonInt = .error e) := by
  refine ⟨?_, ?_, ?_, ?_, ?_, ?_⟩
  · intro A B h
    simp only [mkSum]
    rw [if_pos h]
    exact ⟨_, rfl⟩
  · intro A B h
    simp only [mkSum]
    by_cases hs : (fields A).shape ≠ (fields B).shape
    · rw [if_pos hs]; exact ⟨_, rfl⟩
    · rw [if_neg hs, if_pos h]; exact ⟨_, rfl⟩
  · intro A B h
    simp only [mkProduct]
    rw [if_pos h]
    exact ⟨_, rfl⟩
  · intro A p h
    simp only [mkPower]
    rw [if_pos h]
    exact ⟨_, rfl⟩
  · intro A n h
    simp only [mkPower]
    by_cases hs : (fields A).shape.1 ≠ (fields A).shape.2
    · rw [if_pos hs]; exact ⟨_, rfl⟩
    · rw [if_neg hs]
      simp only [if_pos h]
      exact ⟨_, rfl⟩
  · intro A
    simp only [mkPower]
    by_cases hs : (fields A).shape.1 ≠ (fields A).shape.2
    · rw [if_pos hs]; exact ⟨_, rfl⟩
    · rw [if_neg hs]; exact ⟨_, rfl⟩

/-- C5 witness: concrete failing constructions over Int operators. -/
theorem C5_witness :
    (∃ e, mkSum
      (mkCustom (1, 1) none none none 0 none (false, false) (false, false) : Op Int)
      (mkCustom (2, 1) none none none 0 none (false, false) (false, false)) =
        .error e) ∧
    (∃ e, mkSum
      (mkCustom (1, 1) none none none 0 none (true, false) (false, false) : Op Int)
      (mkCustom (1, 1) none none none 0 none (false, false) (false, false)) =
        .error e) ∧
    (∃ e, mkProduct
      (mkCustom (1, 2) none none none 0 none (false, false) (false, false) : Op Int)
      (mkCustom (3, 1) none none none 0 none (false, false) (false, false)) =
        .error e) ∧
    (∃ e, mkPower
      (mkCustom (1, 2) none none none 0 none (false, false) (false, false) : Op Int)
      (.ofInt 1) = .error e) ∧
    (∃ e, mkPower
      (mkCustom (1, 1) none none none 0 none (false, false) (false, false) : Op Int)
      (.ofInt (-2)) = .error e) ∧
    (∃ e, mkPower
      (mkCustom (1, 1) none none none 0 none (false, false) (false, false) : Op Int)
      .nonInt = .error e) :=
  ⟨C5_construction_errors.1 _ _ (by decide),
   C5_construction_errors.2.1 _ _ (by decide),
   C5_construction_errors.2.2.1 _ _ (by decide),
   C5_construction_errors.2.2.2.1 _ _ (by decide),
   C5_construction_errors.2.2.2.2.1 _ _ (by decide),
   C5_construction_errors.2.2.2.2.2 _⟩

/-- C6: a conformable product A * B has shape (A.shape[0], B.shape[1]),
eval flags (B's forward eval, A's adjoint eval) and convert flags
(B's forward convert, A's adjoint convert). -/
theorem C6_product_fields (A B : Op α) (h : (fields A).shape.2 = (fields B).shape.1) :
    ∃ P, mkProduct A B = .ok P ∧
      (fields P).shape = ((fields A).shape.1, (fields B).shape.2) ∧
      (fields P).compute = ((fields B).compute.1, (fields A).compute.2) ∧
      (fields P).todask = ((fields B).todask.1, (fields A).todask.2) := by
  refine ⟨.prod ⟨((fields A).shape.1, (fields B).shape.2), (fields A).dtype,
    (fields A).explicit, ((fields B).compute.1, (fields A).compute.2),
    ((fields B).todask.1, (fields A).todask.2)⟩ A B, ?_, rfl, rfl, rfl⟩
  simp only [mkProduct]
  rw [if_neg (not_not.mpr h)]

/-- C6 witness at concrete operators with asymmetric flags. -/
theorem C6_witness :
    ∃ P, mkProduct
      (mkCustom (2, 3) none none none 0 none (true, false) (false, true) : Op Int)
      (mkCustom (3, 4) none none none 0 none (false, true) (true, false)) = .ok P ∧
      (fields P).shape = (2, 4) ∧
      (fields P).compute = (false, false) ∧
      (fields P).todask = (true, true) :=
  C6_product_fields _ _ (by decide)

/-- C10: Sum construction checks equality of the eval-flag pairs but makes
no check on the convert-flag pairs, and the resulting node takes dtype,
explicit flag, eval flags and convert flags entirely from the left
operand (no hypothesis relates the operands' convert flags or dtypes). -/
theorem C10_sum_fields (A B : Op α) (hs : (fields A).shape = (fields B).shape)
    (hc : (fields A).compute = (fields B).compute) :
    ∃ S, mkSum A B = .ok S ∧ S = .sum (fields A) A B ∧
      (fields S).dtype = (fields A).dtype ∧
      (fields S).explicit = (fields A).explicit ∧
      (fields S).compute = (fields A).compute ∧
      (fields S).todask = (fields A).todask := by
  refine ⟨.sum (fields A) A B, ?_, rfl, rfl, rfl, rfl, rfl⟩
  simp only [mkSum]
  rw [if_neg (not_not.mpr hs), if_neg (not_not.mpr hc)]

/-- C10 witness at concrete operators whose convert flags and dtypes
differ. -/
theorem C10_witness :
    ∃ S, mkSum
      (mkCustom (2, 2) none none none 7 (some true) (true, false) (true, true) : Op Int)
      (mkCustom (2, 2) none none none 9 none (true, false) (false, false)) = .ok S ∧
      S = .sum ⟨(2, 2), 7, some true, (true, false), (true, true)⟩
        (mkCustom (2, 2) none none none 7 (some true) (true, false) (true, true))
        (mkCustom (2, 2) none none none 9 none (true, false) (false, false)) ∧
      (fields S).dtype = 7 ∧
      (fields S).explicit = some true ∧
      (fields S).compute = (true, false) ∧
      (fields S).todask = (true, true) :=
  C10_sum_fields _ _ (by decide) (by decide)

end ClaimsConstruction

section ClaimsDispatch

variable {α : Type} [Add α] [Mul α] [InvolutiveStar α]

/-- C4: the composition entry point `dot` dispatches in order on the
operand kind: an operator builds a Product, a scalar builds a Scaled
operator, a 1-d array or a 2-d array with one column goes through the
forward path `matvec`, a 2-d array with several columns goes through the
batched path `matmat`, and any other array raises a shape error; the
matrix-multiply entry point additionally rejects scalar operands with an
error and otherwise behaves as `dot`. -/
theorem C4_dot_dispatch (A : Op α) :
    (∀ B, dot A (.opnd B) = (mkProduct A B).map DotOut.opOut) ∧
    (∀ c, dot A (.scalar c) = .ok (.opOut (mkScaled A c))) ∧
    (∀ a : PyArr α, a.dims.length = 1 →
      dot A (.array a) = .ok (.vecOut (matvec A (pyToVec a)))) ∧
    (∀ a : PyArr α, a.dims.length = 2 → a.dims.getD 1 0 = 1 →
      dot A (.array a) = .ok (.vecOut (matvec A (pyToVec a)))) ∧
    (∀ a : PyArr α, a.dims.length = 2 → a.dims.getD 1 0 ≠ 1 →
      dot A (.array a) = .ok (.matOut (matmat A (pyToMat a)))) ∧
    (∀ a : PyArr α, a.dims.length ≠ 1 → a.dims.length ≠ 2 →
      ∃ e, dot A (.array a) = .error e) ∧
    (∀ c : α, ∃ e, matmulOp A (.scalar c) = .error e) ∧
    (∀ B, matmulOp A (.opnd B) = dot A (.opnd B)) ∧
    (∀ a, matmulOp A (.array a) = dot A (.array a)) := by
  refine ⟨fun B => rfl, fun c => rfl, ?_, ?_, ?_, ?_, fun c => ⟨_, rfl⟩,
    fun B => rfl, fun a => rfl⟩
  · intro a h1
    simp only [dot]
    rw [if_pos (Or.inl h1)]
  · intro a h2 hcol
    simp only [dot]
    rw [if_pos (Or.inr ⟨h2, hcol⟩)]
  · intro a h2 hcol
    simp only [dot]
    rw [if_neg (by
      rintro (h | ⟨-, h⟩)
      · omega
      · exact hcol h), if_pos h2]
  · intro a h1 h2
    simp only [dot]
    rw [if_neg (by
      rintro (h | ⟨h, -⟩)
      · exact h1 h
      · exact h2 h), if_neg h2]
    exact ⟨_, rfl⟩

/-- C4 witness at concrete operators and arrays of each rank. -/
theorem C4_witness :
    (dot (mkCustom (1, 2) (some fun v => some v) none none 0 none
        (false, false) (false, false) : Op Int)
      (.array ⟨[2], [[7, 9]], false, 0⟩) =
      .ok (.vecOut (matvec
        (mkCustom (1, 2) (some fun v => some v) none none 0 none
          (false, false) (false, false))
        (pyToVec ⟨[2], [[7, 9]], false, 0⟩)))) ∧
    (dot (mkCustom (1, 2) (some fun v => some v) none none 0 none
        (false, false) (false, false) : Op Int)
      (.array ⟨[2, 1], [[7, 9]], false, 0⟩) =
      .ok (.vecOut (matvec
        (mkCustom (1, 2) (some fun v => some v) none none 0 none
          (false, false) (false, false))
        (pyToVec ⟨[2, 1], [[7, 9]], false, 0⟩)))) ∧
    (dot (mkCustom (1, 2) (some fun v => some v) none none 0 none
        (false, false) (false, false) : Op Int)
      (.array ⟨[2, 3], [[1, 2], [3, 4], [5, 6]], false, 0⟩) =
      .ok (.matOut (matmat
        (mkCustom (1, 2) (some fun v => some v) none none 0 none
          (false, false) (false, false))
        (pyToMat ⟨[2, 3], [[1, 2], [3, 4], [5, 6]], false, 0⟩)))) ∧
    (∃ e, dot (mkCustom (1, 2) (some fun v => some v) none none 0 none
        (false, false) (false, false) : Op Int)
      (.array ⟨[2, 3, 2], [[1]], false, 0⟩) = .error e) ∧
    (∃ e, matmulOp (mkCustom (1, 2) (some fun v => some v) none none 0 none
        (false, false) (false, false) : Op Int) (.scalar 4) = .error e) :=
  ⟨(C4_dot_dispatch _).2.2.1 _ (by decide),
   (C4_dot_dispatch _).2.2.2.1 _ (by decide) (by decide),
   (C4_dot_dispatch _).2.2.2.2.1 _ (by decide) (by decide),
   (C4_dot_dispatch _).2.2.2.2.2.1 _ (by decide) (by decide),
   (C4_dot_dispatch _).2.2.2.2.2.2.1 4⟩

end ClaimsDispatch

section ClaimsProduct

variable {α : Type} [Add α] [Mul α] [InvolutiveStar α]

/-- C2 (amended): for conformable A, B, whenever the forward application
of A * B succeeds its values agree with A.apply(B.apply(x)) (and the
results are equal outright when B's forward eval flag is false — when that
flag is set the composite triggers one further computation of the final
result, which fails outright on an already concrete value); the mirrored
statement holds for the adjoint action against
B.applyAdjoint(A.applyAdjoint(y)); and the adjoint of the whole is built
as B.adjoint() * A.adjoint(). -/
theorem C2_product_amended (A B P : Op α) (hP : mkProduct A B = .ok P) :
    (∀ x r, matvec P x = some r →
      ∃ s, (matvec B x).bind (matvec A) = some s ∧ r.data = s.data ∧
        ((fields B).compute.1 = false → r = s)) ∧
    (∀ y r, rmatvec P y = some r →
      ∃ s, (rmatvec A y).bind (rmatvec B) = some s ∧ r.data = s.data ∧
        ((fields A).compute.2 = false → r = s)) ∧
    (∀ bH aH, adjointOp B = .ok bH → adjointOp A = .ok aH →
      adjointOp P = mkProduct bH aH) := by
  obtain ⟨hsh, hP'⟩ := mkProduct_ok A B P hP
  subst hP'
  refine ⟨?_, ?_, ?_⟩
  · intro x r h
    rw [matvec_eq] at h
    simp only [acts_prod, fields_prod] at h
    rw [matvec_fromA B x] at h
    rcases hb : matvec B x with _ | b
    · rw [hb] at h; simp at h
    · rw [hb] at h
      simp only [Option.some_bind] at h
      rcases ha : matvec A b with _ | s
      · rw [ha] at h; simp at h
      · rw [ha] at h
        have hlen : s.data.length = (fields A).shape.1 := matvec_length A b s ha
        simp only [Option.some_bind, reshapeTo, hlen, if_pos] at h
        refine ⟨s, by simpa using ha, ?_⟩
        cases hc : (fields B).compute.1
        · simp only [cmpIf, hc, Bool.false_eq_true, ite_false, Option.some.injEq] at h
          subst h
          exact ⟨rfl, fun _ => rfl⟩
        · simp only [cmpIf, hc, ite_true] at h
          exact ⟨computeD_data s r h, fun hff => nomatch hff⟩
  · intro y r h
    rw [rmatvec_eq] at h
    simp only [acts_prod, fields_prod] at h
    rw [rmatvec_fromA A y] at h
    rcases hb : rmatvec A y with _ | b
    · rw [hb] at h; simp at h
    · rw [hb] at h
      simp only [Option.some_bind] at h
      rcases ha : rmatvec B b with _ | s
      · rw [ha] at h; simp at h
      · rw [ha] at h
        have hlen : s.data.length = (fields B).shape.2 := rmatvec_length B b s ha
        simp only [Option.some_bind, reshapeTo, hlen, if_pos] at h
        refine ⟨s, by simpa using ha, ?_⟩
        cases hc : (fields A).compute.2
        · simp only [cmpIf, hc, Bool.false_eq_true, ite_false, Option.some.injEq] at h
          subst h
          exact ⟨rfl, fun _ => rfl⟩
        · simp only [cmpIf, hc, ite_true] at h
          exact ⟨computeD_data s r h, fun hff => nomatch hff⟩
  · intro bH aH h1 h2
    simp only [adjointOp, h1, h2]
    rfl

/-- C2 witness: a concrete conformable pair with all flags false, where
the composite application succeeds and matches the chained application. -/
theorem C2_witness :
    ∃ s, (matvec
        (mkCustom (1, 1) (some fun v => some (smulA 3 v)) none none 0 none
          (false, false) (false, false) : Op Int) ⟨[5], true, 0⟩).bind
      (matvec (mkCustom (1, 1) (some fun v => some (smulA 2 v)) none none 0 none
        (false, false) (false, false))) = some s ∧
      (⟨[30], true, 0⟩ : Arr Int).data = s.data ∧
      ((fields (mkCustom (1, 1) (some fun v => some (smulA 3 v)) none none 0 none
        (false, false) (false, false) : Op Int)).compute.1 = false →
        (⟨[30], true, 0⟩ : Arr Int) = s) :=
  (C2_product_amended
    (mkCustom (1, 1) (some fun v => some (smulA 2 v)) none none 0 none
      (false, false) (false, false) : Op Int)
    (mkCustom (1, 1) (some fun v => some (smulA 3 v)) none none 0 none
      (false, false) (false, false))
    _ rfl).1 ⟨[5], true, 0⟩ ⟨[30], true, 0⟩ (by decide)

/-- C2 counterexample to the claim as stated: with B's forward eval flag
set, the composite forward application fails (the envelope triggers a
second computation on a value the chain already materialized) while the
chained application A.apply(B.apply(x)) succeeds, so the two are not
equal. -/
theorem C2_counterexample :
    ∃ P : Op Int, mkProduct
      (mkCustom (1, 1) (some fun v => some v) (some fun v => some v) none 0 none
        (false, false) (false, false))
      (mkCustom (1, 1) (some fun v => some v) (some fun v => some v) none 0 none
        (true, false) (false, false)) = .ok P ∧
      matvec P ⟨[5], true, 0⟩ ≠
        (matvec (mkCustom (1, 1) (some fun v => some v) (some fun v => some v)
          none 0 none (true, false) (false, false) : Op Int) ⟨[5], true, 0⟩).bind
        (matvec (mkCustom (1, 1) (some fun v => some v) (some fun v => some v)
          none 0 none (false, false) (false, false))) := by
  refine ⟨_, rfl, ?_⟩
  decide

end ClaimsProduct

section ClaimsScaled

variable {α : Type} [Add α] [Mul α] [InvolutiveStar α]

/-- C8 (amended): whenever the adjoint application of alpha * A succeeds,
it equals conjugate(alpha) times A.applyAdjoint(y) — the scalar is
conjugated — and success forces A's adjoint eval flag to be false, since
otherwise the scaled envelope would trigger computation a second time on
the value the child already materialized; the adjoint of the whole is the
Scaled operator over A.adjoint() with scalar conjugate(alpha). -/
theorem C8_scaled_adjoint_amended (A : Op α) (c : α) :
    (∀ y r, rmatvec (mkScaled A c) y = some r →
      ∃ s, rmatvec A y = some s ∧ r = smulA (star c) s) ∧
    (∀ aH, adjointOp A = .ok aH →
      adjointOp (mkScaled A c) = .ok (mkScaled aH (star c))) := by
  constructor
  · intro y r h
    rw [mkScaled_eq, rmatvec_eq] at h
    simp only [acts_scaled, fields_scaled] at h
    rw [rmatvec_fromA A y] at h
    rcases hs : rmatvec A y with _ | s
    · rw [hs] at h; simp at h
    · rw [hs] at h
      have hlen : (smulA (star c) s).data.length = (fields A).shape.2 := by
        simpa [smulA] using rmatvec_length A y s hs
      simp only [Option.map_some', Option.some_bind, reshapeTo, hlen, if_pos] at h
      cases hc : (fields A).compute.2
      · simp only [cmpIf, hc, Bool.false_eq_true, ite_false, Option.some.injEq] at h
        exact ⟨s, rfl, h.symm⟩
      · simp only [cmpIf, hc, ite_true] at h
        have hd : s.dask = false := rmatvec_computed A y s hs hc
        have hd2 : (smulA (star c) s).dask = false := hd
        simp [computeD, hd2] at h
  · intro aH h
    simp only [mkScaled_eq, adjointOp, h]
    rfl

/-- C8 witness: a concrete scaled adjoint application with flags false. -/
theorem C8_witness :
    ∃ s, rmatvec
      (mkCustom (1, 1) (some fun v => some v) (some fun v => some (smulA 2 v))
        none 0 none (false, false) (false, false) : Op Int) ⟨[4], true, 0⟩ =
      some s ∧
      (⟨[24], true, 0⟩ : Arr Int) = smulA (star (3 : Int)) s :=
  (C8_scaled_adjoint_amended
    (mkCustom (1, 1) (some fun v => some v) (some fun v => some (smulA 2 v))
      none 0 none (false, false) (false, false) : Op Int) 3).1
    ⟨[4], true, 0⟩ ⟨[24], true, 0⟩ (by decide)

/-- C8 counterexample to the claim as stated: with A's adjoint eval flag
set, the adjoint application of alpha * A fails (second computation
trigger on a concrete value) while conjugate(alpha) times A.applyAdjoint(y)
succeeds. -/
theorem C8_counterexample :
    rmatvec (mkScaled
      (mkCustom (1, 1) (some fun v => some v) (some fun v => some v) none 0 none
        (false, true) (false, false) : Op Int) 5) ⟨[2], true, 0⟩ ≠
      (rmatvec (mkCustom (1, 1) (some fun v => some v) (some fun v => some v)
        none 0 none (false, true) (false, false) : Op Int) ⟨[2], true, 0⟩).map
        (smulA (star (5 : Int))) := by
  decide

end ClaimsScaled

section ClaimsConj

variable {α : Type} [Add α] [Mul α] [InvolutiveStar α]

theorem acts_withFields (X : Op α) (g : Fields)
    (h : g.compute = (fields X).compute ∨ isPower X = false) :
    (∀ x, (acts (withFields X g)).mvI x = (acts X).mvI x) ∧
    (∀ x, (acts (withFields X g)).rmvI x = (acts X).rmvI x) := by
  cases X with
  | custom f mv rmv mm => exact ⟨fun x => rfl, fun x => rfl⟩
  | sum f A B => exact ⟨fun x => rfl, fun x => rfl⟩
  | prod f A B => exact ⟨fun x => rfl, fun x => rfl⟩
  | scaled f A c => exact ⟨fun x => rfl, fun x => rfl⟩
  | conj f A => exact ⟨fun x => rfl, fun x => rfl⟩
  | power f A p =>
    rcases h with h | h
    · simp only [fields_power] at h
      constructor <;> intro x <;>
        simp only [withFields, acts_power, h]
    · simp [isPower] at h

/-- C9 (amended): the Conjugate variant calls its child's private
implementations directly: its private forward action is
conj(child_matvec(conj(x))) (and mirrored for the adjoint), and the
child's convert flags, declared shape, dtype and explicit flag are never
consulted during the Conjugate's public forward or adjoint action — the
whole attribute record of the child can be replaced without changing the
action as long as the eval-flag pair is preserved; the child's own eval
flags are also never consulted unless the child is a Power operator,
whose private implementation itself reads its own eval flags. -/
theorem C9_conj_private_amended (A : Op α) :
    (∀ (f : Fields) (x : Arr α),
      (acts (Op.conj f A)).mvI x = ((acts A).mvI (conjA x)).map conjA) ∧
    (∀ (f : Fields) (y : Arr α),
      (acts (Op.conj f A)).rmvI y = ((acts A).rmvI (conjA y)).map conjA) ∧
    (∀ (f g : Fields) (x : Arr α), g.compute = (fields A).compute →
      matvec (Op.conj f (withFields A g)) x = matvec (Op.conj f A) x ∧
      rmatvec (Op.conj f (withFields A g)) x = rmatvec (Op.conj f A) x) ∧
    (∀ (f g : Fields) (x : Arr α), isPower A = false →
      matvec (Op.conj f (withFields A g)) x = matvec (Op.conj f A) x ∧
      rmatvec (Op.conj f (withFields A g)) x = rmatvec (Op.conj f A) x) := by
  have main : ∀ (f g : Fields) (x : Arr α),
      (g.compute = (fields A).compute ∨ isPower A = false) →
      matvec (Op.conj f (withFields A g)) x = matvec (Op.conj f A) x ∧
      rmatvec (Op.conj f (withFields A g)) x = rmatvec (Op.conj f A) x := by
    intro f g x h
    obtain ⟨hm, hr⟩ := acts_withFields A g h
    constructor
    · rw [matvec_eq, matvec_eq]
      simp only [acts_conj, fields_conj, hm]
    · rw [rmatvec_eq, rmatvec_eq]
      simp only [acts_conj, fields_conj, hr]
  exact ⟨fun f x => rfl, fun f y => rfl,
    fun f g x h => main f g x (Or.inl h),
    fun f g x h => main f g x (Or.inr h)⟩

/-- C9 witness: a concrete Conjugate over a Sum child whose convert flags
and shape are replaced without changing the action. -/
theorem C9_witness :
    matvec (Op.conj ⟨(1, 1), 0, none, (false, false), (false, false)⟩
      (withFields
        (mkCustom (1, 1) (some fun v => some v) none none 0 none
          (false, false) (true, true) : Op Int)
        ⟨(9, 9), 5, some true, (false, false), (false, true)⟩)) ⟨[3], true, 0⟩ =
    matvec (Op.conj ⟨(1, 1), 0, none, (false, false), (false, false)⟩
      (mkCustom (1, 1) (some fun v => some v) none none 0 none
        (false, false) (true, true) : Op Int)) ⟨[3], true, 0⟩ :=
  ((C9_conj_private_amended
    (mkCustom (1, 1) (some fun v => some v) none none 0 none
      (false, false) (true, true) : Op Int)).2.2.1
    ⟨(1, 1), 0, none, (false, false), (false, false)⟩
    ⟨(9, 9), 5, some true, (false, false), (false, true)⟩
    ⟨[3], true, 0⟩ (by decide)).1

/-- C9 counterexample to the claim as stated: a Power child's eval flags
are consulted during the Conjugate's forward action — zeroing them changes
the result. -/
theorem C9_counterexample :
    ∃ P : Op Int, mkPower
      (mkCustom (1, 1) (some fun v => some v) (some fun v => some v) none 0 none
        (true, false) (false, false)) (.ofInt 1) = .ok P ∧
      matvec (Op.conj ⟨(1, 1), 0, none, (false, false), (false, false)⟩ P)
        ⟨[3], true, 0⟩ ≠
      matvec (Op.conj ⟨(1, 1), 0, none, (false, false), (false, false)⟩
        (setCompute P (false, false))) ⟨[3], true, 0⟩ := by
  refine ⟨_, rfl, ?_⟩
  decide

end ClaimsConj

section AdjointInvolution

variable {α : Type} [Add α] [Mul α] [InvolutiveStar α]

theorem cleanTop (X : Op α) (h : cleanWF X = true) :
    (fields X).compute = (false, false) := by
  induction X with
  | custom f mv rmv mm =>
    simp only [cleanWF, beq_iff_eq] at h
    exact h
  | sum f A B ihA ihB =>
    simp only [cleanWF, Bool.and_eq_true, beq_iff_eq] at h
    obtain ⟨⟨⟨⟨hA, hB⟩, hsh⟩, hcp⟩, hf⟩ := h
    rw [fields_sum, hf]
    exact ihA hA
  | prod f A B ihA ihB =>
    simp only [cleanWF, Bool.and_eq_true, beq_iff_eq] at h
    obtain ⟨⟨⟨hA, hB⟩, hio⟩, hf⟩ := h
    rw [fields_prod, hf]
    show ((fields B).compute.1, (fields A).compute.2) = (false, false)
    rw [ihA hA, ihB hB]
  | scaled f A c ihA =>
    simp only [cleanWF, Bool.and_eq_true, beq_iff_eq] at h
    obtain ⟨hA, hf⟩ := h
    rw [fields_scaled, hf]
    exact ihA hA
  | power f A p ihA =>
    simp only [cleanWF, Bool.and_eq_true, beq_iff_eq] at h
    obtain ⟨⟨hA, hsq⟩, hf⟩ := h
    rw [fields_power, hf]
    exact ihA hA
  | conj f A ihA =>
    simp only [cleanWF, Bool.and_eq_true, beq_iff_eq] at h
    obtain ⟨hA, hf⟩ := h
    rw [fields_conj, hf]
    exact ihA hA

theorem iterOpt_congr {γ : Type} (f g : γ → Option γ) (h : ∀ z, f z = g z) :
    ∀ (p : Nat) (x : γ), iterOpt f p x = iterOpt g p x := by
  intro p
  induction p with
  | zero => intro x; rfl
  | succ n ih =>
    intro x
    rw [iterOpt, iterOpt, h x]
    cases g x with
    | none => rfl
    | some y => simpa using ih y

theorem powerRun_congr (f g : DVal β → Option (DVal β)) (h : ∀ z, f z = g z)
    (p : Nat) (cmp : Bool) (x : DVal β) : powerRun f p cmp x = powerRun g p cmp x := by
  rw [powerRun, powerRun, iterOpt_congr f g h p x]

theorem pubSwapF (X Y : Op α)
    (hsh : (fields Y).shape = ((fields X).shape.2, (fields X).shape.1))
    (htd : (fields Y).todask = ((fields X).todask.2, (fields X).todask.1))
    (hcX : (fields X).compute = (false, false))
    (hcY : (fields Y).compute = (false, false))
    (him : ∀ z, (acts Y).mvI z = (acts X).rmvI z) :
    ∀ x, matvec Y x = rmatvec X x := by
  intro x
  have h1 : (fields Y).todask.1 = (fields X).todask.2 := by rw [htd]
  have h2 : (fields Y).shape.1 = (fields X).shape.2 := by rw [hsh]
  have h3 : (fields Y).compute.1 = false := by rw [hcY]
  have h4 : (fields X).compute.2 = false := by rw [hcX]
  rw [matvec_eq, rmatvec_eq, h1, h2, h3, h4, him]

theorem pubSwapR (X Y : Op α)
    (hsh : (fields Y).shape = ((fields X).shape.2, (fields X).shape.1))
    (htd : (fields Y).todask = ((fields X).todask.2, (fields X).todask.1))
    (hcX : (fields X).compute = (false, false))
    (hcY : (fields Y).compute = (false, false))
    (him : ∀ z, (acts Y).rmvI z = (acts X).mvI z) :
    ∀ x, rmatvec Y x = matvec X x := by
  intro x
  have h1 : (fields Y).todask.2 = (fields X).todask.1 := by rw [htd]
  have h2 : (fields Y).shape.2 = (fields X).shape.1 := by rw [hsh]
  have h3 : (fields Y).compute.2 = false := by rw [hcY]
  have h4 : (fields X).compute.1 = false := by rw [hcX]
  rw [rmatvec_eq, matvec_eq, h1, h2, h3, h4, him]

/-- Key step for the adjoint involution: on an all-lazy well formed
operator the adjoint construction succeeds, transposes the shape, swaps
the convert flags, stays all-lazy and well formed, and its private
forward and adjoint implementations are the original adjoint and forward
implementations. -/
theorem adjSwap (X : Op α) (h : cleanWF X = true) :
    ∃ Y, adjointOp X = .ok Y ∧ cleanWF Y = true ∧
      (fields Y).shape = ((fields X).shape.2, (fields X).shape.1) ∧
      (fields Y).todask = ((fields X).todask.2, (fields X).todask.1) ∧
      (∀ x, (acts Y).mvI x = (acts X).rmvI x) ∧
      (∀ x, (acts Y).rmvI x = (acts X).mvI x) := by
  induction X with
  | custom f mv rmv mm =>
    simp only [cleanWF, beq_iff_eq] at h
    refine ⟨_, rfl, ?_, rfl, rfl, fun x => rfl, fun x => rfl⟩
    simp only [cleanWF, beq_iff_eq]
    exact h
  | sum f A B ihA ihB =>
    simp only [cleanWF, Bool.and_eq_true, beq_iff_eq] at h
    obtain ⟨⟨⟨⟨hA, hB⟩, hsh⟩, hcp⟩, hf⟩ := h
    obtain ⟨A1, eA, cA1, shA, tdA, mA, rA⟩ := ihA hA
    obtain ⟨B1, eB, cB1, shB, tdB, mB, rB⟩ := ihB hB
    have hcA := cleanTop A hA
    have hcB := cleanTop B hB
    have hcA1 := cleanTop A1 cA1
    have hcB1 := cleanTop B1 cB1
    have hshAB : (fields A1).shape = (fields B1).shape := by
      rw [shA, shB, hsh]
    have hcpAB : (fields A1).compute = (fields B1).compute := by
      rw [hcA1, hcB1]
    have estep : adjointOp (.sum f A B) = .ok (.sum (fields A1) A1 B1) := by
      simp only [adjointOp, eA, eB]
      show mkSum A1 B1 = _
      simp only [mkSum]
      rw [if_neg (not_not.mpr hshAB), if_neg (not_not.mpr hcpAB)]
    refine ⟨_, estep, ?_, ?_, ?_, ?_, ?_⟩
    · simp only [cleanWF, Bool.and_eq_true, beq_iff_eq]
      exact ⟨⟨⟨⟨cA1, cB1⟩, hshAB⟩, hcpAB⟩, trivial⟩
    · simp only [fields_sum]
      rw [shA, hf]
    · simp only [fields_sum]
      rw [tdA, hf]
    · intro x
      simp only [acts_sum]
      rw [pubSwapF A A1 shA tdA hcA hcA1 mA x,
          pubSwapF B B1 shB tdB hcB hcB1 mB x]
    · intro x
      simp only [acts_sum]
      rw [pubSwapR A A1 shA tdA hcA hcA1 rA x,
          pubSwapR B B1 shB tdB hcB hcB1 rB x]
  | prod f A B ihA ihB =>
    simp only [cleanWF, Bool.and_eq_true, beq_iff_eq] at h
    obtain ⟨⟨⟨hA, hB⟩, hio⟩, hf⟩ := h
    obtain ⟨A1, eA, cA1, shA, tdA, mA, rA⟩ := ihA hA
    obtain ⟨B1, eB, cB1, shB, tdB, mB, rB⟩ := ihB hB
    have hcA := cleanTop A hA
    have hcB := cleanTop B hB
    have hcA1 := cleanTop A1 cA1
    have hcB1 := cleanTop B1 cB1
    have hio1 : (fields B1).shape.2 = (fields A1).shape.1 := by
      rw [shB, shA]
      exact hio.symm
    have estep : adjointOp (.prod f A B) =
        .ok (.prod ⟨((fields B1).shape.1, (fields A1).shape.2),
          (fields B1).dtype, (fields B1).explicit,
          ((fields A1).compute.1, (fields B1).compute.2),
          ((fields A1).todask.1, (fields B1).todask.2)⟩ B1 A1) := by
      simp only [adjointOp, eA, eB]
      show mkProduct B1 A1 = _
      simp only [mkProduct]
      rw [if_neg (not_not.mpr hio1)]
    refine ⟨_, estep, ?_, ?_, ?_, ?_, ?_⟩
    · simp only [cleanWF, Bool.and_eq_true, beq_iff_eq]
      exact ⟨⟨⟨cB1, cA1⟩, hio1⟩, trivial⟩
    · simp only [fields_prod]
      show ((fields B1).shape.1, (fields A1).shape.2) = (f.shape.2, f.shape.1)
      have p1 : (fields B1).shape.1 = (fields B).shape.2 := by rw [shB]
      have p2 : (fields A1).shape.2 = (fields A).shape.1 := by rw [shA]
      rw [p1, p2, hf]
    · simp only [fields_prod]
      show ((fields A1).todask.1, (fields B1).todask.2) = (f.todask.2, f.todask.1)
      have p1 : (fields A1).todask.1 = (fields A).todask.2 := by rw [tdA]
      have p2 : (fields B1).todask.2 = (fields B).todask.1 := by rw [tdB]
      rw [p1, p2, hf]
    · intro x
      simp only [acts_prod]
      rw [pubSwapF A A1 shA tdA hcA hcA1 mA x]
      have := pubSwapF B B1 shB tdB hcB hcB1 mB
      simp only [this]
    · intro x
      simp only [acts_prod]
      rw [pubSwapR B B1 shB tdB hcB hcB1 rB x]
      have := pubSwapR A A1 shA tdA hcA hcA1 rA
      simp only [this]
  | scaled f A c ihA =>
    simp only [cleanWF, Bool.and_eq_true, beq_iff_eq] at h
    obtain ⟨hA, hf⟩ := h
    obtain ⟨A1, eA, cA1, shA, tdA, mA, rA⟩ := ihA hA
    have hcA := cleanTop A hA
    have hcA1 := cleanTop A1 cA1
    have estep : adjointOp (.scaled f A c) =
        .ok (.scaled (fields A1) A1 (star c)) := by
      simp only [adjointOp, eA]
      rfl
    refine ⟨_, estep, ?_, ?_, ?_, ?_, ?_⟩
    · simp only [cleanWF, Bool.and_eq_true, beq_iff_eq]
      exact ⟨cA1, trivial⟩
    · simp only [fields_scaled]
      rw [shA, hf]
    · simp only [fields_scaled]
      rw [tdA, hf]
    · intro x
      simp only [acts_scaled]
      rw [pubSwapF A A1 shA tdA hcA hcA1 mA x]
    · intro x
      simp only [acts_scaled, star_star]
      rw [pubSwapR A A1 shA tdA hcA hcA1 rA x]
  | power f A p ihA =>
    simp only [cleanWF, Bool.and_eq_true, beq_iff_eq] at h
    obtain ⟨⟨hA, hsq⟩, hf⟩ := h
    obtain ⟨A1, eA, cA1, shA, tdA, mA, rA⟩ := ihA hA
    have hcA := cleanTop A hA
    have hcA1 := cleanTop A1 cA1
    have hsq1 : (fields A1).shape.1 = (fields A1).shape.2 := by
      rw [shA]
      exact hsq.symm
    have estep : adjointOp (.power f A p) =
        .ok (.power (fields A1) A1 p) := by
      simp only [adjointOp, eA]
      show mkPower A1 (.ofInt (p : Int)) = _
      simp only [mkPower]
      rw [if_neg (not_not.mpr hsq1), if_neg (not_lt.mpr (Int.natCast_nonneg p)),
          setCompute_id A1 hcA1]
      simp
    refine ⟨_, estep, ?_, ?_, ?_, ?_, ?_⟩
    · simp only [cleanWF, Bool.and_eq_true, beq_iff_eq]
      exact ⟨⟨cA1, hsq1⟩, trivial⟩
    · simp only [fields_power]
      rw [shA, hf]
    · simp only [fields_power]
      rw [tdA, hf]
    · intro x
      simp only [acts_power]
      have c1 : (fields A1).compute.1 = false := by rw [hcA1]
      have c2 : f.compute.2 = false := by rw [hf, hcA]
      rw [c1, c2, powerRun_congr (matvec A1) (rmatvec A)
        (pubSwapF A A1 shA tdA hcA hcA1 mA) p false x]
    · intro x
      simp only [acts_power]
      have c1 : (fields A1).compute.2 = false := by rw [hcA1]
      have c2 : f.compute.1 = false := by rw [hf, hcA]
      rw [c1, c2, powerRun_congr (rmatvec A1) (matvec A)
        (pubSwapR A A1 shA tdA hcA hcA1 rA) p false x]
  | conj f A ihA =>
    simp only [cleanWF, Bool.and_eq_true, beq_iff_eq] at h
    obtain ⟨hA, hf⟩ := h
    obtain ⟨A1, eA, cA1, shA, tdA, mA, rA⟩ := ihA hA
    have estep : adjointOp (.conj f A) = .ok (.conj (fields A1) A1) := by
      simp only [adjointOp, eA]
      rfl
    refine ⟨_, estep, ?_, ?_, ?_, ?_, ?_⟩
    · simp only [cleanWF, Bool.and_eq_true, beq_iff_eq]
      exact ⟨cA1, trivial⟩
    · simp only [fields_conj]
      rw [shA, hf]
    · simp only [fields_conj]
      rw [tdA, hf]
    · intro x
      simp only [acts_conj]
      rw [mA]
    · intro x
      simp only [acts_conj]
      rw [rA]

/-- C7 (amended): for every well formed operator all of whose eval flags
are false — Custom and all five composite variants — the double adjoint
A.adjoint().adjoint() exists and is observationally equivalent to A: its
public forward and adjoint applications agree with A's on every input.
(The restriction to all-false eval flags is forced: a Power operator with
a set eval flag loses that flag under double adjoint and its forward
action differs, see the counterexample.) -/
theorem C7_adjoint_involution_amended (X : Op α) (h : cleanWF X = true) :
    ∃ Y Z, adjointOp X = .ok Y ∧ adjointOp Y = .ok Z ∧
      (∀ x, matvec Z x = matvec X x) ∧ (∀ x, rmatvec Z x = rmatvec X x) := by
  obtain ⟨Y, eY, cY, shY, tdY, mY, rY⟩ := adjSwap X h
  obtain ⟨Z, eZ, cZ, shZ, tdZ, mZ, rZ⟩ := adjSwap Y cY
  refine ⟨Y, Z, eY, eZ, ?_, ?_⟩
  · intro x
    have h1 : (fields Z).todask.1 = (fields X).todask.1 := by rw [tdZ, tdY]
    have h2 : (fields Z).shape.1 = (fields X).shape.1 := by rw [shZ, shY]
    have h3 : (fields Z).compute.1 = (fields X).compute.1 := by
      rw [cleanTop Z cZ, cleanTop X h]
    rw [matvec_eq, matvec_eq, h1, h2, h3, mZ, rY]
  · intro x
    have h1 : (fields Z).todask.2 = (fields X).todask.2 := by rw [tdZ, tdY]
    have h2 : (fields Z).shape.2 = (fields X).shape.2 := by rw [shZ, shY]
    have h3 : (fields Z).compute.2 = (fields X).compute.2 := by
      rw [cleanTop Z cZ, cleanTop X h]
    rw [rmatvec_eq, rmatvec_eq, h1, h2, h3, rZ, mY]

/-- C7 witness: a concrete all-lazy scaled operator over a custom leaf,
where the double adjoint exists and agrees on a concrete input. -/
theorem C7_witness :
    ∃ Y Z : Op Int,
      adjointOp (mkScaled
        (mkCustom (2, 2) (some fun v => some (smulA 2 v))
          (some fun v => some (smulA 3 v)) none 0 none
          (false, false) (true, false)) 5) = .ok Y ∧
      adjointOp Y = .ok Z ∧
      matvec Z ⟨[1, 2], true, 0⟩ =
        matvec (mkScaled
          (mkCustom (2, 2) (some fun v => some (smulA 2 v))
            (some fun v => some (smulA 3 v)) none 0 none
            (false, false) (true, false)) 5) ⟨[1, 2], true, 0⟩ := by
  obtain ⟨Y, Z, e1, e2, hm, hr⟩ :=
    C7_adjoint_involution_amended
      (mkScaled
        (mkCustom (2, 2) (some fun v => some (smulA 2 v))
          (some fun v => some (smulA 3 v)) none 0 none
          (false, false) (true, false)) 5 : Op Int) (by decide)
  exact ⟨Y, Z, e1, e2, hm _⟩

/-- C7 counterexample to the claim as stated: a Power operator with a set
forward eval flag is not observationally equivalent to its double
adjoint — the double adjoint loses the eval flag, so the original forward
application fails (double computation trigger) where the double adjoint's
succeeds. -/
theorem C7_counterexample :
    ∃ P P1 P2 : Op Int,
      mkPower (mkCustom (1, 1) (some fun v => some v) (some fun v => some v)
        none 0 none (true, false) (false, false)) (.ofInt 1) = .ok P ∧
      adjointOp P = .ok P1 ∧ adjointOp P1 = .ok P2 ∧
      matvec P2 ⟨[3], true, 0⟩ ≠ matvec P ⟨[3], true, 0⟩ := by
  refine ⟨_, _, _, rfl, rfl, rfl, ?_⟩
  decide

end AdjointInvolution

section ClaimPower

/-- C1: evaluation of the Power operator at concrete inputs. With the
Power operator's eval flags false, the forward application applies the
child's map p times in sequence on a copy of the input (p = 2 doubles
twice), and p = 0 returns the input unchanged. But with the Power
operator's forward eval flag true, the claimed single final trigger does
not happen: the shared power routine `_power` triggers the computation
(the private result is the materialized value with one trigger), and the
inherited public envelope then attempts a second `.compute()` on that
already concrete result, so the public application fails instead of
returning the once-computed value. -/
theorem C1_power_eval_trigger :
    (∃ P : Op Int, mkPower
        (mkCustom (1, 1) (some fun v => some (smulA 2 v)) none none 0 none
          (false, false) (false, false)) (.ofInt 2) = .ok P ∧
      matvec P ⟨[3], true, 0⟩ = some ⟨[12], true, 0⟩) ∧
    (∃ P : Op Int, mkPower
        (mkCustom (1, 1) (some fun v => some (smulA 2 v)) none none 0 none
          (false, false) (false, false)) (.ofInt 0) = .ok P ∧
      matvec P ⟨[3], true, 0⟩ = some ⟨[3], true, 0⟩) ∧
    (∃ P : Op Int, mkPower
        (mkCustom (1, 1) (some fun v => some (smulA 2 v)) none none 0 none
          (true, true) (false, false)) (.ofInt 2) = .ok P ∧
      (acts P).mvI ⟨[3], true, 0⟩ = some ⟨[12], false, 1⟩ ∧
      matvec P ⟨[3], true, 0⟩ = none) := by
  refine ⟨⟨_, rfl, by decide⟩, ⟨_, rfl, by decide⟩, ⟨_, rfl, by decide, by decide⟩⟩

end ClaimPower

end PLD
